import Mathlib

/-!
Verification of the `raferbop/classification` repository core pipeline:
the HS-code extractor, the multi-backend consensus requester, the product
analyzer, the best-match ranker, and the configuration loader, shallowly
embedded from `src/utils/get_hs_code.py`, `src/utils/filter_commodity_code.py`
and `src/utils/config.py`.
-/

namespace Classification

/-! ## Code Extractor (`HSCodeGenerator.extract_hs_codes`)

The Python code compiles the pattern
`\b\d{4}\.\d{2}\b|\b\d{6}\b|\b\d{4}\.\d{2}\.\d{2}\b` and runs `findall`,
then normalizes each match with `match.replace('.', '')[:6]` and removes
duplicates preserving order with a `seen` set.

`re.findall` semantics for this pattern: scan left to right; at each
position try the three alternatives in order; on success record the match
and resume after it, otherwise advance one character.  `\b` is a word
boundary (word characters: alphanumerics and underscore; we model the
ASCII behaviour of CPython's `re` on the inputs at hand). -/

def wordChar (c : Char) : Bool := c.isAlphanum || c == '_'

/-- Consume exactly `n` decimal digits from the front of `l`,
returning the digits and the remainder. -/
def takeDigits : Nat → List Char → Option (List Char × List Char)
  | 0, l => some ([], l)
  | _ + 1, [] => none
  | n + 1, c :: rest =>
    if c.isDigit then
      match takeDigits n rest with
      | some (d, r) => some (c :: d, r)
      | none => none
    else none

/-- The zero-width `\b` test at the position just after a match:
the remainder either is empty or starts with a non-word character. -/
def boundaryAfter : List Char → Bool
  | [] => true
  | c :: _ => !wordChar c

/-- First alternative `\d{4}\.\d{2}` followed by `\b`
(the leading `\b` is checked by the scanner). -/
def matchAlt1 (l : List Char) : Option (List Char × List Char) :=
  match takeDigits 4 l with
  | some (d1, r1) =>
    match r1 with
    | c :: r2 =>
      if c = '.' then
        match takeDigits 2 r2 with
        | some (d2, r3) =>
          if boundaryAfter r3 then some (d1 ++ '.' :: d2, r3) else none
        | none => none
      else none
    | [] => none
  | none => none

/-- Second alternative `\d{6}` followed by `\b`. -/
def matchAlt2 (l : List Char) : Option (List Char × List Char) :=
  match takeDigits 6 l with
  | some (d, r) => if boundaryAfter r then some (d, r) else none
  | none => none

/-- Third alternative `\d{4}\.\d{2}\.\d{2}` followed by `\b`. -/
def matchAlt3 (l : List Char) : Option (List Char × List Char) :=
  match takeDigits 4 l with
  | some (d1, r1) =>
    match r1 with
    | c :: r2 =>
      if c = '.' then
        match takeDigits 2 r2 with
        | some (d2, r3) =>
          match r3 with
          | c' :: r4 =>
            if c' = '.' then
              match takeDigits 2 r4 with
              | some (d3, r5) =>
                if boundaryAfter r5 then
                  some (d1 ++ '.' :: d2 ++ '.' :: d3, r5)
                else none
              | none => none
            else none
          | [] => none
        | none => none
      else none
    | [] => none
  | none => none

/-- Try the three alternatives of the compiled pattern in order,
as Python's regex engine does at a fixed start position. -/
def tryMatch (l : List Char) : Option (List Char × List Char) :=
  match matchAlt1 l with
  | some r => some r
  | none =>
    match matchAlt2 l with
    | some r => some r
    | none => matchAlt3 l

/-- Left-to-right non-overlapping scan of `re.findall`.  `bnd` records
whether the current position satisfies the leading `\b` (start of string
or previous character not a word character; every alternative starts with
a digit, which is a word character).  After a recorded match the previous
character is the match's final digit, so the boundary flag is `false`.
The fuel is an upper bound on the number of characters left. -/
def scanAux : Nat → Bool → List Char → List (List Char)
  | 0, _, _ => []
  | _ + 1, _, [] => []
  | fuel + 1, bnd, c :: rest =>
    if bnd then
      match tryMatch (c :: rest) with
      | some (m, r) => m :: scanAux fuel false r
      | none => scanAux fuel (!wordChar c) rest
    else scanAux fuel (!wordChar c) rest

/-- `re.findall` of the HS-code pattern over the whole text. -/
def findAll (text : String) : List (List Char) :=
  scanAux text.toList.length true text.toList

/-- `match.replace('.', '')[:6]`: drop every period, keep the first six
characters. -/
def normalizeMatch (m : List Char) : String :=
  ⟨(m.filter fun c => !(c == '.')).take 6⟩

/-- The `seen`-set deduplication of the Python list comprehension:
keep the first occurrence of each string, drop later repeats.
Fuel-driven so that concrete inputs evaluate by `decide`. -/
def dedupFirstAux : Nat → List String → List String
  | 0, _ => []
  | _ + 1, [] => []
  | fuel + 1, x :: xs => x :: dedupFirstAux fuel (xs.filter fun y => y != x)

def dedupFirst (l : List String) : List String :=
  dedupFirstAux l.length l

/-- `HSCodeGenerator.extract_hs_codes`: guard on empty text, find all
pattern matches, normalize, deduplicate preserving first-seen order. -/
def extract_hs_codes (text : String) : List String :=
  if text = "" then []
  else dedupFirst ((findAll text).map normalizeMatch)

/-- The position of the first occurrence of `a` in `l`
(`l.length` when absent). -/
def firstIdx (l : List String) (a : String) : Nat :=
  match l with
  | [] => 0
  | x :: xs => if x = a then 0 else firstIdx xs a + 1

/-- A six-character numeral string. -/
def isSixDigitCode (s : String) : Bool :=
  s.length = 6 && s.toList.all Char.isDigit

/-! ## Model Gateway (`HSCodeGenerator._make_openrouter_request`)

The network interaction is an explicit oracle: either the request itself
raised, or a response arrived with an HTTP status and a body whose
decoding to `result['choices'][0]['message']['content']` either yields
the content text or raises. -/

inductive HttpOutcome where
  | raised
  | response (status : Nat) (body : Except Unit String)

/-- `_make_openrouter_request`: on a non-200 status the function logs and
returns `""`; on any exception the `except` clause returns `""`;
otherwise it returns the decoded content. -/
def make_openrouter_request (outcome : HttpOutcome) : String :=
  match outcome with
  | .raised => ""
  | .response status body =>
    if status ≠ 200 then ""
    else
      match body with
      | .error _ => ""
      | .ok content => content

/-! ## Consensus Requester (`HSCodeGenerator.get_hs_codes`) -/

structure SourceData where
  response : String
  codes : List String
deriving DecidableEq

/-- The fixed backend roster: primary model followed by the alternates.
Each `provider/model` id is split on `'/'` and rejoined as the source
key, which reproduces the id itself. -/
def models_roster : List String :=
  ["openai/gpt-4o-mini", "meta-llama/llama-3.3-70b-instruct",
   "anthropic/claude-3.5-haiku", "nvidia/llama-3.1-nemotron-70b-instruct"]

/-- One iteration of the response-processing loop of `get_hs_codes`:
an exception outcome records the failure marker, a text outcome records
the text and its extracted codes. -/
def mkSourceEntry (name : String) (outcome : Except Unit String) : String × SourceData :=
  match outcome with
  | .error _ => (name, ⟨"", []⟩)
  | .ok response => (name, ⟨response, extract_hs_codes response⟩)

/-- The `sources` mapping assembled by `get_hs_codes` from the
`asyncio.gather(..., return_exceptions=True)` outcome list, keyed by
backend identity in roster order (Python dicts preserve insertion
order, so an ordered association list is the faithful image). -/
def get_hs_codes_sources (backends : List String)
    (outcomes : List (Except Unit String)) : List (String × SourceData) :=
  (backends.zip outcomes).map fun p => mkSourceEntry p.1 p.2

/-! ## Product Analyzer (`HSCodeGenerator.generate_product_info_async`)

`get_hs_codes` serializes `sources` to JSON and the analyzer parses it
right back; the round-trip is the identity, so the model passes the
association list directly. -/

/-- The union `all_hs_codes` accumulated over all sources.  Python keeps
it in a `set`, whose iteration order in `list(...)` is unspecified; the
model fixes the canonical first-seen order, and every property proved
about it is order-insignificant. -/
def consolidatedCodes (sources : List (String × SourceData)) : List String :=
  dedupFirst (sources.map (·.2.codes)).flatten

def sentinel : List String := ["No HS codes found"]

/-- `hs_codes = list(all_hs_codes) if all_hs_codes else ["No HS codes found"]`. -/
def hs_codes_of (sources : List (String × SourceData)) : List String :=
  if consolidatedCodes sources = [] then sentinel else consolidatedCodes sources

/-- `codes_by_source`: only sources whose extracted code list is truthy
(non-empty) are recorded. -/
def codes_by_source (sources : List (String × SourceData)) :
    List (String × SourceData) :=
  sources.filter fun s => !s.2.codes.isEmpty

structure ProductInfo where
  name : String
  type : String
  information : String
  hs_codes : List String
  classification_rules : List (String × String)
  sources : List (String × SourceData)
  timestamp : String
deriving DecidableEq

/-- `HSCodeGenerator.generate_product_info_async` with every network
interaction an explicit oracle:
`ptype`/`pinfo` are the two concurrently gathered product prompts'
results, `backends`/`outcomes` the consensus fan-out, `rule c` the
classification-rule response for code `c` (the prompt also embeds
`pinfo`/`ptype`, constant across one call), `now` the UTC timestamp.
`classification_rules = dict(zip(hs_codes, rules))` keeps insertion
order over the duplicate-free `hs_codes`. -/
def generate_product_info_async (product_name ptype pinfo : String)
    (backends : List String) (outcomes : List (Except Unit String))
    (rule : String → String) (now : String) : Option ProductInfo :=
  if ptype = "" ∨ pinfo = "" then none
  else
    let sources := get_hs_codes_sources backends outcomes
    let hs_codes := hs_codes_of sources
    let classification_rules :=
      if hs_codes = sentinel then []
      else hs_codes.map fun c => (c, rule c)
    some { name := product_name, type := ptype, information := pinfo,
           hs_codes := hs_codes, classification_rules := classification_rules,
           sources := codes_by_source sources, timestamp := now }

/-! ## Best-Match Ranker (`find_best_commodity_match`) -/

structure CodeInfo where
  code : String
  description : String
deriving DecidableEq

/-- Python's substring test `needle in hay`. -/
def strContains (hay needle : String) : Bool :=
  decide (needle.toList <:+: hay.toList)

/-- Python's `str.lower()` (ASCII behaviour, which covers every string
the heuristic compares against its lowercase phrase lists). -/
def lowerStr (s : String) : String :=
  ⟨s.toList.map Char.toLower⟩

/-- Python's `str.split(sep)` for a non-empty separator: split on
non-overlapping occurrences, left to right.  The fuel is an upper bound
on the number of characters left. -/
def splitOnSepAux (sep : List Char) : Nat → List Char → List Char → List (List Char)
  | _, acc, [] => [acc.reverse]
  | 0, acc, l => [acc.reverse ++ l]
  | fuel + 1, acc, c :: rest =>
    if sep.isPrefixOf (c :: rest) then
      acc.reverse :: splitOnSepAux sep fuel [] ((c :: rest).drop sep.length)
    else splitOnSepAux sep fuel (c :: acc) rest

/-- `reasoning.split('\n\n')`: the blank-line-delimited paragraphs. -/
def paragraphsOf (s : String) : List String :=
  (splitOnSepAux ['\n', '\n'] s.toList.length [] s.toList).map fun cs => ⟨cs⟩

def bestMatchPhrases : List String := ["best match", "most appropriate", "best option"]

def positiveWords : List String := ["aligns", "matches", "appropriate", "suitable", "correct"]

def anyPhraseIn (s : String) (phrases : List String) : Bool :=
  phrases.any fun p => strContains s p

/-- The first selection loop: for each candidate in order, if its code
occurs in the reasoning and the lowered reasoning contains a best-match
phrase, look for a blank-line-delimited paragraph containing both the
code and a phrase; the first candidate with such a paragraph is chosen
(a found paragraph necessarily contains a phrase, hence is non-empty,
so Python's `if paragraph:` truthiness test is its existence). -/
def findBestMatchLoop (reasoning : String) : List CodeInfo → Option String
  | [] => none
  | info :: rest =>
    if strContains reasoning info.code
        && anyPhraseIn (lowerStr reasoning) bestMatchPhrases then
      match (paragraphsOf reasoning).find? (fun p =>
          strContains p info.code && anyPhraseIn (lowerStr p) bestMatchPhrases) with
      | some _ => some info.code
      | none => findBestMatchLoop reasoning rest
    else findBestMatchLoop reasoning rest

/-- The second selection loop: for each candidate whose code occurs in
the reasoning, take the FIRST paragraph containing the code; the
candidate is chosen when that paragraph is truthy (non-empty) and
contains an affirming word. -/
def findPositiveLoop (reasoning : String) : List CodeInfo → Option String
  | [] => none
  | info :: rest =>
    if strContains reasoning info.code then
      match (paragraphsOf reasoning).find? (fun p => strContains p info.code) with
      | some p =>
        if p != "" && anyPhraseIn (lowerStr p) positiveWords then some info.code
        else findPositiveLoop reasoning rest
      | none => findPositiveLoop reasoning rest
    else findPositiveLoop reasoning rest

/-- Python's `if not best_code` is false exactly for a set, non-empty
code string. -/
def pythonTruthy (o : Option String) : Bool :=
  match o with
  | none => false
  | some s => s != ""

def fallbackRationale : String :=
  "No clear best match was identified. Using first available code as default."

/-- The value of `best_code` after the first loop: loop 1 runs only under
the guard `"best match" in reasoning.lower()`. -/
def heuristicStep1 (reasoning : String) (infos : List CodeInfo) : Option String :=
  if strContains (lowerStr reasoning) "best match" then
    findBestMatchLoop reasoning infos
  else none

/-- The value of `best_code` after the second loop: it runs only when
`best_code` is still falsy and leaves it unchanged when it selects
nothing. -/
def heuristicStep2 (reasoning : String) (infos : List CodeInfo)
    (best1 : Option String) : Option String :=
  if pythonTruthy best1 then best1
  else
    match findPositiveLoop reasoning infos with
    | some c => some c
    | none => best1

/-- The first-candidate fallback and the returned pair: when `best_code`
is falsy and the candidate list truthy, the first candidate's code is
used and the rationale replaced by the fixed sentence. -/
def heuristicStep3 (reasoning : String) (infos : List CodeInfo)
    (best2 : Option String) : Option String × String :=
  if !(pythonTruthy best2) && !infos.isEmpty then
    (some ((infos.headD ⟨"", ""⟩).code), fallbackRationale)
  else (best2, reasoning)

/-- The heuristic parse of `find_best_commodity_match` after the model
call, as the sequence of the three `best_code` assignments. -/
def heuristicBest (reasoning : String) (infos : List CodeInfo) :
    Option String × String :=
  heuristicStep3 reasoning infos
    (heuristicStep2 reasoning infos (heuristicStep1 reasoning infos))

/-- `find_best_commodity_match`: the whole body sits in one `try`; the
model call and response decoding are the `outcome` oracle, and any
exception lands in the `except` handler, which returns the first
candidate's code (or `None`) with an error-describing rationale. -/
def find_best_commodity_match (infos : List CodeInfo)
    (outcome : Except String String) : Option String × String :=
  match outcome with
  | .error e => ((infos.head?).map (·.code),
                 "Error occurred while analyzing matches: " ++ e)
  | .ok reasoning => heuristicBest reasoning infos

/-! ## Configuration (`config.load_api_keys`, `HSCodeGenerator.__init__`) -/

def required_keys : List (String × String) :=
  [("openai_api_key", "OPENAI_API_KEY"), ("claude_api_key", "CLAUDE_API_KEY"),
   ("groq_api_key", "GROQ_API_KEY"), ("gemini_api_key", "GEMINI_API_KEY")]

/-- `os.getenv` under Python truthiness: a variable set to the empty
string counts as absent, as in `if env_value:`. -/
def getenvTruthy (env : String → Option String) (k : String) : Option String :=
  match env k with
  | some v => if v = "" then none else some v
  | none => none

/-- `load_api_keys`: collect the present keys, raise a `ValueError`
naming the missing environment variables when any are absent. -/
def load_api_keys (env : String → Option String) :
    Except (List String) (List (String × String)) :=
  let missing := (required_keys.filter fun kv =>
    (getenvTruthy env kv.2).isNone).map (·.2)
  if missing = [] then
    .ok (required_keys.filterMap fun kv =>
      (getenvTruthy env kv.2).map fun v => (kv.1, v))
  else .error missing

/-- `HSCodeGenerator.__init__` (reached through `get_generator`) up to
its first failure point: load the config, then read
`self.config['openrouter_api_key']` — a `KeyError` when the key is
absent from the loaded config.  The surrounding `except` logs and
re-raises, so either failure propagates to the constructor's caller;
on success the result is the bearer credential used in the
`Authorization` header. -/
def hs_code_generator_init (env : String → Option String) : Except String String :=
  match load_api_keys env with
  | .error missing =>
    .error ("Missing required environment variables: " ++
      String.intercalate ", " missing)
  | .ok config =>
    match config.lookup "openrouter_api_key" with
    | some v => .ok v
    | none => .error "KeyError: openrouter_api_key"

/-! ## Declarative forms of the ranker's two selection loops -/

/-- The selection condition of loop 1, read off the code: the candidate's
code occurs in the reasoning, the lowered reasoning contains a best-match
phrase, and some paragraph contains both the code and a phrase. -/
def loop1Cond (reasoning : String) (info : CodeInfo) : Bool :=
  strContains reasoning info.code &&
  anyPhraseIn (lowerStr reasoning) bestMatchPhrases &&
  ((paragraphsOf reasoning).any fun p =>
    strContains p info.code && anyPhraseIn (lowerStr p) bestMatchPhrases)

/-- The selection condition of loop 2, read off the code: the candidate's
code occurs in the reasoning and the FIRST paragraph containing the code
is non-empty and contains an affirming word. -/
def loop2Cond (reasoning : String) (info : CodeInfo) : Bool :=
  strContains reasoning info.code &&
  match (paragraphsOf reasoning).find? (fun p => strContains p info.code) with
  | some p => p != "" && anyPhraseIn (lowerStr p) positiveWords
  | none => false

/-- Modelled from the spec: step (c) of the Best-Match Ranker as the spec
words it — select the first candidate whose code appears in SOME
blank-line-delimited paragraph that also contains one of the affirming
words.  (The code instead inspects only the first paragraph containing
the code; this definition exists to compare the two.) -/
def specStepCSelect (reasoning : String) (infos : List CodeInfo) : Option String :=
  (infos.find? fun info => (paragraphsOf reasoning).any fun p =>
    strContains p info.code && anyPhraseIn (lowerStr p) positiveWords).map (·.code)

/-- An environment supplying every credential `load_api_keys` requires. -/
def fullEnv : String → Option String := fun k =>
  if k ∈ ["OPENAI_API_KEY", "CLAUDE_API_KEY", "GROQ_API_KEY", "GEMINI_API_KEY"]
  then some "secret" else none

example : extract_hs_codes "8471.30" = ["847130"] := by decide
example : extract_hs_codes "847130 and 8471.30 and 850110" = ["847130", "850110"] := by decide
example : extract_hs_codes "" = [] := by decide
example : extract_hs_codes "8471.30.12" = ["847130"] := by decide
example : extract_hs_codes "12345678" = [] := by decide
example : extract_hs_codes "code 999999, again 999999." = ["999999"] := by decide

example :
    heuristicBest "850110 is the best match because it fits"
      [⟨"850110", "A"⟩, ⟨"850120", "B"⟩]
    = (some "850110", "850110 is the best match because it fits") := by decide

example :
    heuristicBest "nothing relevant here" [⟨"850110", "A"⟩]
    = (some "850110", fallbackRationale) := by decide

example : heuristicBest "whatever" [] = (none, "whatever") := by decide

example :
    (heuristicBest ("850110 intro\n\n850110 is appropriate")
      [⟨"111111", "a"⟩, ⟨"850110", "b"⟩]).1
    = some "111111" := by decide

example :
    hs_codes_of (get_hs_codes_sources ["a", "b"]
      [.ok "8471.30", .ok "847130"]) = ["847130"] := by decide

example :
    hs_codes_of (get_hs_codes_sources ["a", "b"]
      [.error (), .error ()]) = sentinel := by decide

/-! ## Deduplication lemmas -/

theorem dedupFirstAux_mem (n : Nat) (l : List String) (a : String)
    (h : l.length ≤ n) : a ∈ dedupFirstAux n l ↔ a ∈ l := by
  induction n generalizing l with
  | zero =>
    have : l = [] := List.eq_nil_of_length_eq_zero (Nat.le_zero.mp h)
    subst this; simp [dedupFirstAux]
  | succ n ih =>
    cases l with
    | nil => simp [dedupFirstAux]
    | cons x xs =>
      have hlen : (xs.filter fun y => y != x).length ≤ n :=
        le_trans (List.length_filter_le _ _) (Nat.lt_succ_iff.mp h)
      by_cases hax : a = x
      · subst hax; simp [dedupFirstAux]
      · simp only [dedupFirstAux, List.mem_cons, ih _ hlen, List.mem_filter,
          bne_iff_ne, ne_eq]
        constructor
        · rintro (h' | ⟨h', -⟩)
          · exact absurd h' hax
          · exact Or.inr h'
        · rintro (h' | h')
          · exact absurd h' hax
          · exact Or.inr ⟨h', hax⟩

theorem dedupFirst_mem (l : List String) (a : String) :
    a ∈ dedupFirst l ↔ a ∈ l :=
  dedupFirstAux_mem l.length l a le_rfl

theorem dedupFirstAux_nodup (n : Nat) (l : List String)
    (h : l.length ≤ n) : (dedupFirstAux n l).Nodup := by
  induction n generalizing l with
  | zero => simp [dedupFirstAux]
  | succ n ih =>
    cases l with
    | nil => simp [dedupFirstAux]
    | cons x xs =>
      have hlen : (xs.filter fun y => y != x).length ≤ n :=
        le_trans (List.length_filter_le _ _) (Nat.lt_succ_iff.mp h)
      refine List.nodup_cons.mpr ⟨fun hmem => ?_, ih _ hlen⟩
      have := (dedupFirstAux_mem n _ x hlen).mp hmem
      simp [List.mem_filter] at this

theorem dedupFirst_nodup (l : List String) : (dedupFirst l).Nodup :=
  dedupFirstAux_nodup l.length l le_rfl

theorem firstIdx_cons_self (a : String) (l : List String) :
    firstIdx (a :: l) a = 0 := by simp [firstIdx]

theorem firstIdx_cons_ne (x a : String) (l : List String) (h : x ≠ a) :
    firstIdx (x :: l) a = firstIdx l a + 1 := by simp [firstIdx, h]

theorem firstIdx_filter_lt (p : String → Bool) (l : List String) (a b : String)
    (ha : a ∈ l.filter p) (hb : b ∈ l.filter p)
    (hlt : firstIdx (l.filter p) a < firstIdx (l.filter p) b) :
    firstIdx l a < firstIdx l b := by
  induction l with
  | nil => simp at ha
  | cons c t ih =>
    by_cases hpc : p c
    · rw [List.filter_cons_of_pos hpc] at ha hb hlt
      by_cases hca : c = a
      · subst hca
        have hb' : c ≠ b := by
          rintro rfl
          exact absurd hlt (lt_irrefl _)
        rw [firstIdx_cons_self, firstIdx_cons_ne c b t hb']
        exact Nat.succ_pos _
      · by_cases hcb : c = b
        · subst hcb
          rw [firstIdx_cons_self, firstIdx_cons_ne c a _ hca] at hlt
          exact absurd hlt (Nat.not_lt_zero _)
        · rw [firstIdx_cons_ne c a _ hca, firstIdx_cons_ne c b _ hcb] at hlt
          have ha' : a ∈ t.filter p := by
            rcases List.mem_cons.mp ha with h' | h'
            · exact absurd h'.symm hca
            · exact h'
          have hb' : b ∈ t.filter p := by
            rcases List.mem_cons.mp hb with h' | h'
            · exact absurd h'.symm hcb
            · exact h'
          rw [firstIdx_cons_ne c a _ hca, firstIdx_cons_ne c b _ hcb]
          exact Nat.succ_lt_succ (ih ha' hb' (Nat.lt_of_succ_lt_succ hlt))
    · rw [List.filter_cons_of_neg hpc] at ha hb hlt
      have hpa : p a := (List.mem_filter.mp ha).2
      have hpb : p b := (List.mem_filter.mp hb).2
      have hca : c ≠ a := fun h => hpc (h ▸ hpa)
      have hcb : c ≠ b := fun h => hpc (h ▸ hpb)
      rw [firstIdx_cons_ne c a _ hca, firstIdx_cons_ne c b _ hcb]
      exact Nat.succ_lt_succ (ih ha hb hlt)

theorem dedupFirstAux_pairwise (n : Nat) (l : List String)
    (h : l.length ≤ n) :
    (dedupFirstAux n l).Pairwise (fun a b => firstIdx l a < firstIdx l b) := by
  induction n generalizing l with
  | zero => simp [dedupFirstAux]
  | succ n ih =>
    cases l with
    | nil => simp [dedupFirstAux]
    | cons x xs =>
      have hlen : (xs.filter fun y => y != x).length ≤ n :=
        le_trans (List.length_filter_le _ _) (Nat.lt_succ_iff.mp h)
      rw [dedupFirstAux, List.pairwise_cons]
      constructor
      · intro b hb
        have hb' := (dedupFirstAux_mem n _ b hlen).mp hb
        have hbx : b ≠ x := by
          have := (List.mem_filter.mp hb').2
          simpa [bne_iff_ne] using this
        rw [firstIdx_cons_self, firstIdx_cons_ne x b xs (Ne.symm hbx)]
        exact Nat.succ_pos _
      · have hpw := ih _ hlen
        refine List.Pairwise.imp_of_mem ?_ hpw
        intro a b hma hmb hab
        have hma' := (dedupFirstAux_mem n _ a hlen).mp hma
        have hmb' := (dedupFirstAux_mem n _ b hlen).mp hmb
        have hax : a ≠ x := by
          have := (List.mem_filter.mp hma').2; simpa [bne_iff_ne] using this
        have hbx : b ≠ x := by
          have := (List.mem_filter.mp hmb').2; simpa [bne_iff_ne] using this
        rw [firstIdx_cons_ne x a xs (Ne.symm hax),
          firstIdx_cons_ne x b xs (Ne.symm hbx)]
        exact Nat.succ_lt_succ
          (firstIdx_filter_lt (fun y => y != x) xs a b hma' hmb' hab)

theorem dedupFirst_pairwise (l : List String) :
    (dedupFirst l).Pairwise (fun a b => firstIdx l a < firstIdx l b) :=
  dedupFirstAux_pairwise l.length l le_rfl

/-! ## Extractor shape lemmas -/

theorem takeDigits_spec (n : Nat) (l d r : List Char)
    (h : takeDigits n l = some (d, r)) :
    d.length = n ∧ ∀ c ∈ d, c.isDigit = true := by
  induction n generalizing l d r with
  | zero =>
    simp only [takeDigits, Option.some.injEq, Prod.mk.injEq] at h
    obtain ⟨h1, -⟩ := h
    subst h1
    simp
  | succ n ih =>
    cases l with
    | nil => simp [takeDigits] at h
    | cons c rest =>
      simp only [takeDigits] at h
      split at h
      · split at h
        · rename_i hc d' r' hrec
          obtain ⟨h1, h2⟩ : c :: d' = d ∧ r' = r := by simpa using h
          subst h1
          obtain ⟨hlen, hdig⟩ := ih rest d' r' hrec
          refine ⟨by simp [hlen], ?_⟩
          intro x hx
          rcases List.mem_cons.mp hx with rfl | hx'
          · assumption
          · exact hdig x hx'
        · simp at h
      · simp at h

theorem isDigit_ne_dot {c : Char} (h : c.isDigit = true) : (c == '.') = false := by
  cases hcd : c == '.' with
  | false => rfl
  | true =>
    have : c = '.' := by simpa using hcd
    subst this
    simp at h

theorem filter_ne_dot_of_digits (d : List Char) (h : ∀ c ∈ d, c.isDigit = true) :
    (d.filter fun c => !(c == '.')) = d := by
  induction d with
  | nil => rfl
  | cons c rest ih =>
    have hc := isDigit_ne_dot (h c (List.mem_cons_self c rest))
    simp only [List.filter_cons, hc]
    simpa using ih fun x hx => h x (List.mem_cons_of_mem c hx)

theorem isSixDigitCode_of_digits (d : List Char) (hlen : d.length = 6)
    (hdig : ∀ c ∈ d, c.isDigit = true) : isSixDigitCode ⟨d⟩ = true := by
  have h1 : (String.mk d).length = d.length := rfl
  have h2 : (String.mk d).toList = d := rfl
  simp only [isSixDigitCode, h1, h2, hlen, Bool.and_eq_true, decide_eq_true_eq,
    List.all_eq_true]
  exact ⟨trivial, fun c hc => hdig c hc⟩

theorem matchAlt1_shape (l m r : List Char) (h : matchAlt1 l = some (m, r)) :
    isSixDigitCode (normalizeMatch m) = true := by
  unfold matchAlt1 at h
  split at h
  · rename_i d1 r1 h4
    obtain ⟨hlen1, hdig1⟩ := takeDigits_spec 4 l d1 r1 h4
    split at h
    · split at h
      · rename_i c r2 hc
        subst hc
        split at h
        · rename_i d2 r3 h2
          obtain ⟨hlen2, hdig2⟩ := takeDigits_spec 2 r2 d2 r3 h2
          split at h
          · obtain ⟨hm, -⟩ : d1 ++ '.' :: d2 = m ∧ r3 = r := by simpa using h
            subst hm
            have hfil : ((d1 ++ '.' :: d2).filter fun c => !(c == '.'))
                = d1 ++ d2 := by
              have hdot : (!(('.' : Char) == '.')) = false := rfl
              simp [List.filter_append, List.filter_cons, hdot,
                filter_ne_dot_of_digits d1 hdig1,
                filter_ne_dot_of_digits d2 hdig2]
            have hlen : (d1 ++ d2).length = 6 := by simp [hlen1, hlen2]
            simp only [normalizeMatch, hfil]
            rw [List.take_of_length_le (le_of_eq hlen)]
            refine isSixDigitCode_of_digits _ hlen ?_
            intro c hc
            rcases List.mem_append.mp hc with h' | h'
            · exact hdig1 c h'
            · exact hdig2 c h'
          · simp at h
        · simp at h
      · simp at h
    · simp at h
  · simp at h

theorem matchAlt2_shape (l m r : List Char) (h : matchAlt2 l = some (m, r)) :
    isSixDigitCode (normalizeMatch m) = true := by
  unfold matchAlt2 at h
  split at h
  · rename_i d r' h6
    obtain ⟨hlen, hdig⟩ := takeDigits_spec 6 l d r' h6
    split at h
    · obtain ⟨hm, -⟩ : d = m ∧ r' = r := by simpa using h
      subst hm
      simp only [normalizeMatch, filter_ne_dot_of_digits d hdig]
      rw [List.take_of_length_le (le_of_eq hlen)]
      exact isSixDigitCode_of_digits d hlen hdig
    · simp at h
  · simp at h

theorem matchAlt3_shape (l m r : List Char) (h : matchAlt3 l = some (m, r)) :
    isSixDigitCode (normalizeMatch m) = true := by
  unfold matchAlt3 at h
  split at h
  · rename_i d1 r1 h4
    obtain ⟨hlen1, hdig1⟩ := takeDigits_spec 4 l d1 r1 h4
    split at h
    · split at h
      · rename_i c r2 hc
        subst hc
        split at h
        · rename_i d2 r3 h2
          obtain ⟨hlen2, hdig2⟩ := takeDigits_spec 2 r2 d2 r3 h2
          split at h
          · split at h
            · rename_i c' r4 hc'
              subst hc'
              split at h
              · rename_i d3 r5 h3
                obtain ⟨hlen3, hdig3⟩ := takeDigits_spec 2 r4 d3 r5 h3
                split at h
                · obtain ⟨hm, -⟩ :
                      d1 ++ '.' :: d2 ++ '.' :: d3 = m ∧ r5 = r := by
                    simpa using h
                  subst hm
                  have hfil : ((d1 ++ '.' :: d2 ++ '.' :: d3).filter
                      fun c => !(c == '.')) = d1 ++ (d2 ++ d3) := by
                    have hdot : (!(('.' : Char) == '.')) = false := rfl
                    simp [List.filter_append, List.filter_cons, hdot,
                      filter_ne_dot_of_digits d1 hdig1,
                      filter_ne_dot_of_digits d2 hdig2,
                      filter_ne_dot_of_digits d3 hdig3]
                  have hmem : ∀ c ∈ d1 ++ (d2 ++ d3), c.isDigit = true := by
                    intro c hc
                    rcases List.mem_append.mp hc with h' | h'
                    · exact hdig1 c h'
                    · rcases List.mem_append.mp h' with h'' | h''
                      · exact hdig2 c h''
                      · exact hdig3 c h''
                  have hlen8 : (d1 ++ (d2 ++ d3)).length = 8 := by
                    simp [hlen1, hlen2, hlen3]
                  simp only [normalizeMatch, hfil]
                  refine isSixDigitCode_of_digits _ ?_ ?_
                  · simp [List.length_take, hlen8]
                  · intro c hc
                    exact hmem c (List.mem_of_mem_take hc)
                · simp at h
              · simp at h
            · simp at h
          · simp at h
        · simp at h
      · simp at h
    · simp at h
  · simp at h

theorem tryMatch_shape (l m r : List Char) (h : tryMatch l = some (m, r)) :
    isSixDigitCode (normalizeMatch m) = true := by
  simp only [tryMatch] at h
  cases h1 : matchAlt1 l with
  | some p => rw [h1] at h; cases h; exact matchAlt1_shape l _ _ h1
  | none =>
    rw [h1] at h
    cases h2 : matchAlt2 l with
    | some p => rw [h2] at h; cases h; exact matchAlt2_shape l _ _ h2
    | none => rw [h2] at h; exact matchAlt3_shape l m r h

theorem scanAux_shape (fuel : Nat) (bnd : Bool) (l : List Char) :
    ∀ m ∈ scanAux fuel bnd l, isSixDigitCode (normalizeMatch m) = true := by
  induction fuel generalizing bnd l with
  | zero => simp [scanAux]
  | succ fuel ih =>
    cases l with
    | nil => simp [scanAux]
    | cons c rest =>
      intro m hm
      simp only [scanAux] at hm
      by_cases hb : bnd
      · rw [if_pos hb] at hm
        cases ht : tryMatch (c :: rest) with
        | some p =>
          rw [ht] at hm
          obtain ⟨m0, r⟩ := p
          rcases List.mem_cons.mp hm with rfl | hm'
          · exact tryMatch_shape (c :: rest) m r ht
          · exact ih _ _ m hm'
        | none => rw [ht] at hm; exact ih _ _ m hm
      · rw [if_neg hb] at hm; exact ih _ _ m hm

theorem extract_hs_codes_eq (t : String) :
    extract_hs_codes t = dedupFirst ((findAll t).map normalizeMatch) := by
  by_cases h : t = ""
  · subst h; rfl
  · simp [extract_hs_codes, h]

/-- C1: For every input text, `extract_hs_codes` returns only 6-character
numeral strings, without duplicates, each a normalized pattern match,
ordered by first occurrence among the normalized matches of the text;
empty input yields `[]` (never the sentinel); and the function is a pure
function, hence deterministic. -/
theorem extract_hs_codes_spec (t : String) :
    ((extract_hs_codes t).all isSixDigitCode = true) ∧
    (extract_hs_codes t).Nodup ∧
    (∀ c, c ∈ extract_hs_codes t ↔ c ∈ (findAll t).map normalizeMatch) ∧
    (extract_hs_codes t).Pairwise (fun a b =>
      firstIdx ((findAll t).map normalizeMatch) a <
        firstIdx ((findAll t).map normalizeMatch) b) ∧
    extract_hs_codes "" = [] ∧
    extract_hs_codes t = extract_hs_codes t := by
  rw [extract_hs_codes_eq]
  refine ⟨?_, dedupFirst_nodup _, fun c => dedupFirst_mem _ c,
    dedupFirst_pairwise _, rfl, rfl⟩
  rw [List.all_eq_true]
  intro c hc
  have hc' := (dedupFirst_mem _ c).mp hc
  obtain ⟨m, hm, rfl⟩ := List.mem_map.mp hc'
  exact scanAux_shape _ _ _ m hm

/-! ## Consensus lemmas -/

theorem consolidatedCodes_mem (sources : List (String × SourceData)) (c : String) :
    c ∈ consolidatedCodes sources ↔ ∃ s ∈ sources, c ∈ s.2.codes := by
  rw [consolidatedCodes, dedupFirst_mem, List.mem_flatten]
  constructor
  · rintro ⟨l, hl, hc⟩
    obtain ⟨s, hs, rfl⟩ := List.mem_map.mp hl
    exact ⟨s, hs, hc⟩
  · rintro ⟨s, hs, hc⟩
    exact ⟨s.2.codes, List.mem_map.mpr ⟨s, hs, rfl⟩, hc⟩

theorem consolidatedCodes_eq_nil (sources : List (String × SourceData)) :
    consolidatedCodes sources = [] ↔ ∀ s ∈ sources, s.2.codes = [] := by
  rw [List.eq_nil_iff_forall_not_mem]
  constructor
  · intro h s hs
    rw [List.eq_nil_iff_forall_not_mem]
    intro c hc
    exact h c ((consolidatedCodes_mem sources c).mpr ⟨s, hs, hc⟩)
  · intro h c hc
    obtain ⟨s, hs, hc'⟩ := (consolidatedCodes_mem sources c).mp hc
    rw [h s hs] at hc'
    simp at hc'

/-- C2: the consolidated `hs_codes` list is the duplicate-free union of
the codes of every source; when every source contributed no codes the
result is exactly the sentinel `["No HS codes found"]`; and two backends
answering `"8471.30"` and `"847130"` both normalize to `"847130"`, which
appears exactly once in the consolidated list. -/
theorem consolidated_codes_spec (sources : List (String × SourceData)) :
    (hs_codes_of sources).Nodup ∧
    ((∃ s ∈ sources, s.2.codes ≠ []) →
      ∀ c, c ∈ hs_codes_of sources ↔ ∃ s ∈ sources, c ∈ s.2.codes) ∧
    ((∀ s ∈ sources, s.2.codes = []) → hs_codes_of sources = sentinel) ∧
    extract_hs_codes "8471.30" = ["847130"] ∧
    extract_hs_codes "847130" = ["847130"] ∧
    hs_codes_of (get_hs_codes_sources
      ["openai/gpt-4o-mini", "meta-llama/llama-3.3-70b-instruct"]
      [Except.ok "8471.30", Except.ok "847130"]) = ["847130"] := by
  refine ⟨?_, ?_, ?_, by decide, by decide, by decide⟩
  · rw [hs_codes_of]
    split
    · simp [sentinel]
    · exact dedupFirst_nodup _
  · intro hne c
    have hnil : consolidatedCodes sources ≠ [] := by
      obtain ⟨s, hs, hcodes⟩ := hne
      intro hzero
      exact hcodes ((consolidatedCodes_eq_nil sources).mp hzero s hs)
    rw [hs_codes_of, if_neg hnil]
    exact consolidatedCodes_mem sources c
  · intro hall
    rw [hs_codes_of, if_pos ((consolidatedCodes_eq_nil sources).mpr hall)]

/-- Witness for C2 at concrete sources: a non-empty source makes the
union branch apply, and membership matches the union. -/
theorem consolidated_codes_spec_witness :
    "847130" ∈ hs_codes_of [("m", ⟨"resp", ["847130"]⟩)] ∧
    hs_codes_of [("m", ⟨"", []⟩)] = sentinel :=
  ⟨((consolidated_codes_spec [("m", ⟨"resp", ["847130"]⟩)]).2.1
      ⟨("m", ⟨"resp", ["847130"]⟩), by simp, by simp⟩ "847130").mpr
      ⟨("m", ⟨"resp", ["847130"]⟩), by simp, by simp⟩,
   (consolidated_codes_spec [("m", ⟨"", []⟩)]).2.2.1 (by simp)⟩

theorem mkSourceEntry_fst (name : String) (o : Except Unit String) :
    (mkSourceEntry name o).1 = name := by
  cases o <;> rfl

theorem get_hs_codes_sources_getElem (backends : List String)
    (outcomes : List (Except Unit String)) (i : Nat) :
    (get_hs_codes_sources backends outcomes)[i]? =
      match backends[i]?, outcomes[i]? with
      | some b, some o => some (mkSourceEntry b o)
      | some _, none => none
      | none, _ => none := by
  induction backends generalizing outcomes i with
  | nil => simp [get_hs_codes_sources]
  | cons b bs ih =>
    cases outcomes with
    | nil =>
      cases i with
      | zero => simp [get_hs_codes_sources]
      | succ n => cases h : bs[n]? <;> simp [get_hs_codes_sources, h]
    | cons o os =>
      cases i with
      | zero => simp [get_hs_codes_sources]
      | succ i =>
        have := ih os i
        simpa [get_hs_codes_sources] using this

/-- C3: every backend of the roster gets an entry keyed by its identity
(`map Prod.fst` is the roster when the outcome list has matching length,
so a failure never aborts the batch); a backend whose outcome is an
exception is recorded as the failure marker `{response := "", codes := []}`;
replacing the outcome of backend `i` never changes the entry recorded
for any other backend `j`; and a non-failing backend is recorded with
its text and extracted codes, independent of the others. -/
theorem get_hs_codes_isolation (backends : List String)
    (outcomes : List (Except Unit String)) :
    (outcomes.length = backends.length →
      (get_hs_codes_sources backends outcomes).map Prod.fst = backends) ∧
    (∀ (i : Nat) (name : String) (e : Unit), backends[i]? = some name →
      outcomes[i]? = some (Except.error e) →
      (get_hs_codes_sources backends outcomes)[i]? =
        some (name, (⟨"", []⟩ : SourceData))) ∧
    (∀ (i j : Nat) (x : Except Unit String), i ≠ j →
      (get_hs_codes_sources backends (outcomes.set i x))[j]? =
        (get_hs_codes_sources backends outcomes)[j]?) ∧
    (∀ (i : Nat) (name text : String), backends[i]? = some name →
      outcomes[i]? = some (Except.ok text) →
      (get_hs_codes_sources backends outcomes)[i]? =
        some (name, (⟨text, extract_hs_codes text⟩ : SourceData))) := by
  refine ⟨?_, ?_, ?_, ?_⟩
  · intro hlen
    rw [get_hs_codes_sources, List.map_map]
    have hfun : (Prod.fst ∘ fun p : String × Except Unit String =>
        mkSourceEntry p.1 p.2) = Prod.fst :=
      funext fun p => mkSourceEntry_fst p.1 p.2
    rw [hfun]
    exact List.map_fst_zip backends outcomes (le_of_eq hlen.symm)
  · intro i name e hb ho
    rw [get_hs_codes_sources_getElem, hb, ho]
    rfl
  · intro i j x hij
    rw [get_hs_codes_sources_getElem, get_hs_codes_sources_getElem,
      List.getElem?_set_ne hij]
  · intro i name text hb ho
    rw [get_hs_codes_sources_getElem, hb, ho]
    rfl

/-- Witness for C3 at a concrete batch: backend 0 fails, backend 1
succeeds; the entries, the keying and the isolation are observed. -/
theorem get_hs_codes_isolation_witness :
    (get_hs_codes_sources ["openai/gpt-4o-mini", "anthropic/claude-3.5-haiku"]
        [Except.error (), Except.ok "8471.30"]).map Prod.fst =
      ["openai/gpt-4o-mini", "anthropic/claude-3.5-haiku"] ∧
    (get_hs_codes_sources ["openai/gpt-4o-mini", "anthropic/claude-3.5-haiku"]
        [Except.error (), Except.ok "8471.30"])[0]? =
      some ("openai/gpt-4o-mini", ⟨"", []⟩) ∧
    (get_hs_codes_sources ["openai/gpt-4o-mini", "anthropic/claude-3.5-haiku"]
        ([Except.ok "999999", Except.ok "8471.30"].set 0 (Except.error ())))[1]? =
      (get_hs_codes_sources ["openai/gpt-4o-mini", "anthropic/claude-3.5-haiku"]
        [Except.ok "999999", Except.ok "8471.30"])[1]? ∧
    (get_hs_codes_sources ["openai/gpt-4o-mini", "anthropic/claude-3.5-haiku"]
        [Except.error (), Except.ok "8471.30"])[1]? =
      some ("anthropic/claude-3.5-haiku", ⟨"8471.30", extract_hs_codes "8471.30"⟩) :=
  ⟨(get_hs_codes_isolation _ _).1 rfl,
   (get_hs_codes_isolation _ _).2.1 0 _ () rfl rfl,
   (get_hs_codes_isolation _ _).2.2.1 0 1 (Except.error ()) (by decide),
   (get_hs_codes_isolation _ _).2.2.2 1 _ "8471.30" rfl rfl⟩

/-! ## Model Gateway theorems -/

/-- C4 counterexample: 201 is a 2xx status and the body decodes to
`"content"`, yet the function returns `""` — the code tests `status != 200`,
not "non-2xx", so the claim's success clause fails at this input. -/
theorem make_openrouter_request_2xx_counterexample :
    (200 ≤ 201 ∧ 201 < 300) ∧
    make_openrouter_request (.response 201 (.ok "content")) = "" ∧
    make_openrouter_request (.response 201 (.ok "content")) ≠ "content" :=
  ⟨by decide, rfl, by decide⟩

/-- C4 amended: `_make_openrouter_request` returns `""` on any status
other than exactly 200 and on any exception while issuing the request or
decoding the body (so it never raises past its boundary, being total by
construction); on a 200 response it returns the decoded content. -/
theorem make_openrouter_request_spec :
    (make_openrouter_request .raised = "") ∧
    (∀ (status : Nat) (body : Except Unit String), status ≠ 200 →
      make_openrouter_request (.response status body) = "") ∧
    (∀ (status : Nat) (e : Unit),
      make_openrouter_request (.response status (.error e)) = "") ∧
    (∀ content, make_openrouter_request (.response 200 (.ok content)) = content) := by
  refine ⟨rfl, ?_, ?_, fun content => rfl⟩
  · intro status body hs
    simp [make_openrouter_request, hs]
  · intro status e
    by_cases hs : status = 200
    · subst hs; rfl
    · simp [make_openrouter_request, hs]

theorem make_openrouter_request_spec_witness :
    make_openrouter_request (.response 500 (.ok "oops")) = "" ∧
    make_openrouter_request (.response 404 (.error ())) = "" :=
  ⟨make_openrouter_request_spec.2.1 500 (.ok "oops") (by decide),
   make_openrouter_request_spec.2.2.1 404 ()⟩

/-! ## Product Analyzer theorems -/

theorem hs_codes_of_nodup (sources : List (String × SourceData)) :
    (hs_codes_of sources).Nodup := by
  rw [hs_codes_of]
  split
  · simp [sentinel]
  · exact dedupFirst_nodup _

/-- C7: if either the product type or the product information comes back
empty, the whole request returns `none`; a returned record always carries
the two texts, both non-empty — never a partially populated record. -/
theorem generate_product_info_empty_guard
    (name ptype pinfo : String) (backends : List String)
    (outcomes : List (Except Unit String)) (rule : String → String)
    (now : String) :
    ((ptype = "" ∨ pinfo = "") →
      generate_product_info_async name ptype pinfo backends outcomes rule now
        = none) ∧
    (∀ r, generate_product_info_async name ptype pinfo backends outcomes rule now
        = some r →
      r.type = ptype ∧ r.information = pinfo ∧ r.type ≠ "" ∧ r.information ≠ "") := by
  constructor
  · intro h
    rw [generate_product_info_async, if_pos h]
  · intro r hr
    by_cases h : ptype = "" ∨ pinfo = ""
    · rw [generate_product_info_async, if_pos h] at hr
      cases hr
    · simp only [generate_product_info_async, if_neg h] at hr
      push_neg at h
      obtain ⟨rfl⟩ := hr
      exact ⟨rfl, rfl, h.1, h.2⟩

theorem generate_product_info_empty_guard_witness :
    generate_product_info_async "p" "" "info" ["m"] [Except.ok "847130"]
      (fun _ => "rule") "ts" = none ∧
    (ProductInfo.mk "p" "t" "i" ["847130"] [("847130", "R")]
        [("m", ⟨"847130", ["847130"]⟩)] "ts").type = "t" :=
  ⟨(generate_product_info_empty_guard "p" "" "info" ["m"] [Except.ok "847130"]
      (fun _ => "rule") "ts").1 (Or.inl rfl),
   ((generate_product_info_empty_guard "p" "t" "i" ["m"] [Except.ok "847130"]
      (fun _ => "R") "ts").2 _ (by decide)).1⟩

/-- C8: a returned record whose consolidated codes equal the sentinel has
an empty rule mapping; otherwise the rule mapping is keyed exactly by the
consolidated codes (duplicate-free, one entry per code, each carrying the
rule response for that code). -/
theorem classification_rules_spec (name ptype pinfo : String)
    (backends : List String) (outcomes : List (Except Unit String))
    (rule : String → String) (now : String) (r : ProductInfo)
    (hr : generate_product_info_async name ptype pinfo backends outcomes rule now
      = some r) :
    (r.hs_codes = sentinel → r.classification_rules = []) ∧
    (r.hs_codes ≠ sentinel →
      r.classification_rules.map Prod.fst = r.hs_codes ∧
      r.hs_codes.Nodup ∧
      r.classification_rules = r.hs_codes.map fun c => (c, rule c)) := by
  by_cases h : ptype = "" ∨ pinfo = ""
  · rw [generate_product_info_async, if_pos h] at hr
    cases hr
  · simp only [generate_product_info_async, if_neg h] at hr
    obtain ⟨rfl⟩ := hr
    constructor
    · intro hsent
      simp only [ProductInfo.classification_rules]
      rw [if_pos hsent]
    · intro hne
      simp only [ProductInfo.classification_rules, ProductInfo.hs_codes] at *
      rw [if_neg hne]
      refine ⟨?_, hs_codes_of_nodup _, rfl⟩
      rw [List.map_map]
      have : (Prod.fst ∘ fun c => (c, rule c)) = id := funext fun c => rfl
      rw [this, List.map_id]

theorem classification_rules_spec_witness :
    (ProductInfo.mk "p" "t" "i" sentinel [] [] "ts").classification_rules
      = [] ∧
    (ProductInfo.mk "p" "t" "i" ["847130"] [("847130", "R")]
        [("m", ⟨"847130", ["847130"]⟩)] "ts").classification_rules.map Prod.fst
      = ["847130"] :=
  ⟨(classification_rules_spec "p" "t" "i" ["m"] [Except.error ()] (fun c => c)
      "ts" (ProductInfo.mk "p" "t" "i" sentinel [] [] "ts") (by decide)).1 rfl,
   ((classification_rules_spec "p" "t" "i" ["m"] [Except.ok "847130"]
      (fun _ => "R") "ts"
      (ProductInfo.mk "p" "t" "i" ["847130"] [("847130", "R")]
        [("m", ⟨"847130", ["847130"]⟩)] "ts") (by decide)).2 (by decide)).1⟩

/-- C10 (implicit): the `sources` field of a returned record keeps exactly
the fan-out entries whose extracted code list is non-empty — a failed
backend (marker `{response := "", codes := []}`) or one whose text yielded
no codes is omitted entirely, so the field can be empty even though every
backend was queried and recorded during the fan-out. -/
theorem sources_filter_spec (name ptype pinfo : String)
    (backends : List String) (outcomes : List (Except Unit String))
    (rule : String → String) (now : String) (r : ProductInfo)
    (hr : generate_product_info_async name ptype pinfo backends outcomes rule now
      = some r) :
    r.sources = (get_hs_codes_sources backends outcomes).filter
      (fun s => !s.2.codes.isEmpty) ∧
    (∀ s ∈ r.sources, s.2.codes ≠ []) ∧
    (∀ s ∈ get_hs_codes_sources backends outcomes,
      s.2.codes ≠ [] → s ∈ r.sources) ∧
    (∀ nm, (nm, (⟨"", []⟩ : SourceData)) ∉ r.sources) := by
  by_cases h : ptype = "" ∨ pinfo = ""
  · rw [generate_product_info_async, if_pos h] at hr
    cases hr
  · simp only [generate_product_info_async, if_neg h] at hr
    obtain ⟨rfl⟩ := hr
    refine ⟨rfl, ?_, ?_, ?_⟩
    · intro s hs
      have := (List.mem_filter.mp hs).2
      simpa using this
    · intro s hs hne
      refine List.mem_filter.mpr ⟨hs, ?_⟩
      simpa using hne
    · intro nm hmem
      have := (List.mem_filter.mp hmem).2
      simp at this

theorem sources_filter_spec_witness :
    (ProductInfo.mk "p" "t" "i" sentinel [] [] "ts").sources = [] ∧
    generate_product_info_async "p" "t" "i" ["m"] [Except.error ()]
      (fun c => c) "ts" = some (ProductInfo.mk "p" "t" "i" sentinel [] [] "ts") :=
  ⟨((sources_filter_spec "p" "t" "i" ["m"] [Except.error ()] (fun c => c) "ts"
      (ProductInfo.mk "p" "t" "i" sentinel [] [] "ts") (by decide)).1).trans
      (by decide),
   by decide⟩

/-! ## Configuration theorems -/

theorem lookup_eq_none_of_keys (l : List (String × String)) (k : String)
    (h : ∀ p ∈ l, p.1 ≠ k) : l.lookup k = none := by
  induction l with
  | nil => rfl
  | cons p t ih =>
    have hp : p.1 ≠ k := h p (List.mem_cons_self p t)
    have hbeq : (k == p.1) = false := by
      simpa [beq_iff_eq] using (Ne.symm hp)
    simp only [List.lookup, hbeq]
    exact ih fun q hq => h q (List.mem_cons_of_mem p hq)

/-- C9: `load_api_keys` fails exactly when some required credential
variable is absent (Python truthiness: unset or empty).  But the
generator constructor then reads `config['openrouter_api_key']`, a key
`load_api_keys` never loads, so `HSCodeGenerator.__init__` raises for
EVERY environment — in particular for one supplying all four required
credentials, where the claim says construction succeeds. -/
theorem credentials_startup_spec :
    (∀ env, (∃ e, load_api_keys env = Except.error e) ↔
      (∃ kv ∈ required_keys, getenvTruthy env kv.2 = none)) ∧
    (∀ env, ∃ e, hs_code_generator_init env = Except.error e) ∧
    load_api_keys fullEnv = Except.ok
      [("openai_api_key", "secret"), ("claude_api_key", "secret"),
       ("groq_api_key", "secret"), ("gemini_api_key", "secret")] ∧
    hs_code_generator_init fullEnv = Except.error "KeyError: openrouter_api_key" := by
  refine ⟨?_, ?_, rfl, rfl⟩
  · intro env
    by_cases hm : ((required_keys.filter fun kv =>
        (getenvTruthy env kv.2).isNone).map (·.2)) = []
    · rw [load_api_keys]
      simp only [hm, if_pos]
      constructor
      · rintro ⟨e, he⟩
        cases he
      · rintro ⟨kv, hkv, hnone⟩
        exfalso
        have : kv.2 ∈ (required_keys.filter fun kv =>
            (getenvTruthy env kv.2).isNone).map (·.2) :=
          List.mem_map.mpr ⟨kv, List.mem_filter.mpr
            ⟨hkv, by simp [hnone]⟩, rfl⟩
        rw [hm] at this
        simp at this
    · rw [load_api_keys]
      simp only [hm, if_neg]
      constructor
      · rintro -
        obtain ⟨x, hx⟩ := List.exists_mem_of_ne_nil _ hm
        obtain ⟨kv, hkv, -⟩ := List.mem_map.mp hx
        have := List.mem_filter.mp hkv
        exact ⟨kv, this.1, by simpa using this.2⟩
      · rintro -
        exact ⟨_, rfl⟩
  · intro env
    cases hload : load_api_keys env with
    | error e =>
      refine ⟨"Missing required environment variables: " ++
        String.intercalate ", " e, ?_⟩
      simp only [hs_code_generator_init, hload]
    | ok config =>
      have hrk : ∀ kv ∈ required_keys, kv.1 ≠ "openrouter_api_key" := by decide
      have hkeys : ∀ p ∈ config, p.1 ≠ "openrouter_api_key" := by
        intro p hp
        rw [load_api_keys] at hload
        split at hload
        · obtain ⟨rfl⟩ := hload
          obtain ⟨kv, hkv, hsome⟩ := List.mem_filterMap.mp hp
          cases hval : getenvTruthy env kv.2 with
          | none => rw [hval] at hsome; cases hsome
          | some v =>
            rw [hval] at hsome
            obtain ⟨rfl⟩ : (kv.1, v) = p := by simpa using hsome
            exact hrk kv hkv
        · cases hload
      have hnone := lookup_eq_none_of_keys config "openrouter_api_key" hkeys
      refine ⟨"KeyError: openrouter_api_key", ?_⟩
      simp only [hs_code_generator_init, hload, hnone]

/-! ## Best-Match Ranker lemmas -/

theorem findBestMatchLoop_eq (reasoning : String) (infos : List CodeInfo) :
    findBestMatchLoop reasoning infos =
      (infos.find? (loop1Cond reasoning)).map (·.code) := by
  induction infos with
  | nil => rfl
  | cons info rest ih =>
    rw [findBestMatchLoop]
    by_cases hA : (strContains reasoning info.code &&
        anyPhraseIn (lowerStr reasoning) bestMatchPhrases) = true
    · rw [if_pos hA]
      cases hpar : (paragraphsOf reasoning).find? (fun p =>
          strContains p info.code && anyPhraseIn (lowerStr p) bestMatchPhrases) with
      | some p =>
        have hany : ((paragraphsOf reasoning).any fun p =>
            strContains p info.code && anyPhraseIn (lowerStr p) bestMatchPhrases)
            = true := by
          rw [List.any_eq_true]
          refine ⟨p, List.mem_of_find?_eq_some hpar, ?_⟩
          simpa using List.find?_some hpar
        have hcond : loop1Cond reasoning info = true := by
          simp only [loop1Cond]
          rw [hA, hany]
          rfl
        rw [List.find?_cons_of_pos _ hcond]
        rfl
      | none =>
        have hany : ((paragraphsOf reasoning).any fun p =>
            strContains p info.code && anyPhraseIn (lowerStr p) bestMatchPhrases)
            = false := by
          rw [List.any_eq_false]
          intro q hq
          exact List.find?_eq_none.mp hpar q hq
        have hcond : loop1Cond reasoning info = false := by
          simp only [loop1Cond]
          rw [hany, Bool.and_false]
        rw [List.find?_cons_of_neg _ (by simp [hcond]), ih]
    · rw [if_neg hA]
      have hcond : loop1Cond reasoning info = false := by
        simp only [loop1Cond]
        rw [Bool.eq_false_iff.mpr hA, Bool.false_and]
      rw [List.find?_cons_of_neg _ (by simp [hcond]), ih]

theorem findPositiveLoop_eq (reasoning : String) (infos : List CodeInfo) :
    findPositiveLoop reasoning infos =
      (infos.find? (loop2Cond reasoning)).map (·.code) := by
  induction infos with
  | nil => rfl
  | cons info rest ih =>
    rw [findPositiveLoop]
    by_cases hB : strContains reasoning info.code = true
    · rw [if_pos hB]
      split
      · rename_i p hfind
        split
        · rename_i hpos
          have hcond : loop2Cond reasoning info = true := by
            simp only [loop2Cond]
            rw [hB, hfind]
            simpa using hpos
          rw [List.find?_cons_of_pos _ hcond]
          rfl
        · rename_i hpos
          have hcond : loop2Cond reasoning info = false := by
            simp only [loop2Cond]
            rw [hB, hfind]
            simpa using Bool.eq_false_iff.mpr hpos
          rw [List.find?_cons_of_neg _ (by simp [hcond]), ih]
      · rename_i hfind
        have hcond : loop2Cond reasoning info = false := by
          simp only [loop2Cond]
          rw [hB, hfind]
          rfl
        rw [List.find?_cons_of_neg _ (by simp [hcond]), ih]
    · rw [if_neg hB]
      have hcond : loop2Cond reasoning info = false := by
        simp only [loop2Cond]
        rw [Bool.eq_false_iff.mpr hB, Bool.false_and]
      rw [List.find?_cons_of_neg _ (by simp [hcond]), ih]

theorem findBestMatchLoop_mem (reasoning : String) (infos : List CodeInfo)
    (c : String) (h : findBestMatchLoop reasoning infos = some c) :
    c ∈ infos.map (·.code) := by
  rw [findBestMatchLoop_eq] at h
  obtain ⟨info, hfi, hc⟩ := Option.map_eq_some'.mp h
  exact List.mem_map.mpr ⟨info, List.mem_of_find?_eq_some hfi, hc⟩

theorem findPositiveLoop_mem (reasoning : String) (infos : List CodeInfo)
    (c : String) (h : findPositiveLoop reasoning infos = some c) :
    c ∈ infos.map (·.code) := by
  rw [findPositiveLoop_eq] at h
  obtain ⟨info, hfi, hc⟩ := Option.map_eq_some'.mp h
  exact List.mem_map.mpr ⟨info, List.mem_of_find?_eq_some hfi, hc⟩

theorem heuristicBest_nil (reasoning : String) :
    heuristicBest reasoning [] = (none, reasoning) := by
  have h1 : heuristicStep1 reasoning [] = none := by
    simp [heuristicStep1, findBestMatchLoop]
  have h2 : heuristicStep2 reasoning [] none = none := by
    simp [heuristicStep2, findPositiveLoop, pythonTruthy]
  simp only [heuristicBest]
  rw [h1, h2]
  simp [heuristicStep3, pythonTruthy]

theorem heuristicStep1_mem (reasoning : String) (infos : List CodeInfo)
    (c : String) (h : heuristicStep1 reasoning infos = some c) :
    c ∈ infos.map (·.code) := by
  simp only [heuristicStep1] at h
  split at h
  · exact findBestMatchLoop_mem reasoning infos c h
  · cases h

theorem heuristicStep2_mem (reasoning : String) (infos : List CodeInfo)
    (best1 : Option String) (c : String)
    (hb : ∀ c', best1 = some c' → c' ∈ infos.map (·.code))
    (h : heuristicStep2 reasoning infos best1 = some c) :
    c ∈ infos.map (·.code) := by
  simp only [heuristicStep2] at h
  split at h
  · exact hb c h
  · split at h
    · rename_i c' hc'
      cases h
      exact findPositiveLoop_mem reasoning infos c hc'
    · exact hb c h

theorem heuristicBest_fst_mem (reasoning : String) (i : CodeInfo)
    (rest : List CodeInfo) :
    ∃ c, (heuristicBest reasoning (i :: rest)).1 = some c ∧
      c ∈ (i :: rest).map (·.code) := by
  have hmem_i : i.code ∈ (i :: rest).map (·.code) :=
    List.mem_map.mpr ⟨i, List.mem_cons_self i rest, rfl⟩
  cases hb : heuristicStep2 reasoning (i :: rest)
      (heuristicStep1 reasoning (i :: rest)) with
  | none =>
    refine ⟨i.code, ?_, hmem_i⟩
    simp [heuristicBest, heuristicStep3, hb, pythonTruthy]
  | some c =>
    by_cases hc : c = ""
    · subst hc
      refine ⟨i.code, ?_, hmem_i⟩
      simp [heuristicBest, heuristicStep3, hb, pythonTruthy]
    · refine ⟨c, ?_, heuristicStep2_mem reasoning (i :: rest) _ c
        (fun c' hc' => heuristicStep1_mem reasoning (i :: rest) c' hc') hb⟩
      simp [heuristicBest, heuristicStep3, hb, pythonTruthy, hc]

/-- C5: `find_best_commodity_match` never raises (it is total), returns a
code drawn from the supplied candidates whenever the candidate list is
non-empty — on every path, including the exception fallback — and
returns a null code when the candidate list is empty. -/
theorem find_best_commodity_match_safe (infos : List CodeInfo)
    (outcome : Except String String) :
    (infos ≠ [] → ∃ c, (find_best_commodity_match infos outcome).1 = some c ∧
      c ∈ infos.map (·.code)) ∧
    (infos = [] → (find_best_commodity_match infos outcome).1 = none) := by
  constructor
  · intro hne
    cases outcome with
    | error e =>
      cases infos with
      | nil => exact absurd rfl hne
      | cons i rest =>
        exact ⟨i.code, rfl, List.mem_map.mpr ⟨i, List.mem_cons_self i rest, rfl⟩⟩
    | ok reasoning =>
      cases infos with
      | nil => exact absurd rfl hne
      | cons i rest => exact heuristicBest_fst_mem reasoning i rest
  · rintro rfl
    cases outcome with
    | error e => rfl
    | ok reasoning => rw [find_best_commodity_match, heuristicBest_nil]

theorem find_best_commodity_match_safe_witness :
    (find_best_commodity_match [⟨"850110", "A"⟩] (Except.error "boom")).1
      = some "850110" ∧
    (find_best_commodity_match [] (Except.ok "whatever")).1 = none := by
  constructor
  · obtain ⟨c, hc, hmem⟩ :=
      (find_best_commodity_match_safe [⟨"850110", "A"⟩]
        (Except.error "boom")).1 (by simp)
    have hce : c = "850110" := by simpa using hmem
    rw [hc, hce]
  · exact (find_best_commodity_match_safe [] (Except.ok "whatever")).2 rfl

/-- C6 counterexample: the response has no "best match" phrase (so the
claim's step (b) does not apply), and by the claim's step (c) — "first
candidate whose code appears in A paragraph also containing an affirming
word" — the candidate "850110" is selected (its code and "appropriate"
share the second paragraph).  But the code inspects only the FIRST
paragraph containing the code, which has no affirming word, so it falls
through to the fallback and returns the first candidate "111111" with
the fixed rationale instead.  A second input shows the empty-code
anomaly: for a candidate whose code is `""`, step (b)'s condition holds
(the empty string occurs in every response and shares a paragraph with
"best match"), so the claim keeps the model rationale, but `if not
best_code` treats the selected `""` as no selection and the code returns
the fixed fallback rationale. -/
theorem heuristic_parse_counterexample :
    strContains (lowerStr "850110 intro\n\n850110 is appropriate")
      "best match" = false ∧
    specStepCSelect "850110 intro\n\n850110 is appropriate"
      [⟨"111111", "a"⟩, ⟨"850110", "b"⟩] = some "850110" ∧
    (heuristicBest "850110 intro\n\n850110 is appropriate"
      [⟨"111111", "a"⟩, ⟨"850110", "b"⟩]).1 = some "111111" ∧
    (heuristicBest "850110 intro\n\n850110 is appropriate"
      [⟨"111111", "a"⟩, ⟨"850110", "b"⟩]).2 = fallbackRationale ∧
    ("111111" : String) ≠ "850110" ∧
    loop1Cond "x is the best match" ⟨"", "d"⟩ = true ∧
    heuristicBest "x is the best match" [⟨"", "d"⟩]
      = (some "", fallbackRationale) ∧
    fallbackRationale ≠ "x is the best match" :=
  ⟨by decide, by decide, by decide, by decide, by decide, by decide, by decide,
   by decide⟩

/-- C6 amended: assuming every candidate code is non-empty (Python's
`if not best_code` treats an empty-string code as no selection), the
parse proceeds in order: (b) when "best match" occurs in the lowered
response, the first candidate satisfying loop 1's condition (code in
response, a best-match phrase in the response, and some paragraph holding
both) is returned with the model rationale; (c) failing that, the first
candidate whose code occurs in the response and whose FIRST
blank-line-delimited paragraph containing the code is non-empty and
holds an affirming word is returned with the model rationale; (d)
failing that, a non-empty candidate list yields the first candidate's
code with the fixed no-clear-best-match rationale; an empty candidate
list yields no code. -/
theorem heuristic_parse_amended (reasoning : String) (infos : List CodeInfo)
    (hne : ∀ info ∈ infos, info.code ≠ "") :
    (strContains (lowerStr reasoning) "best match" = true →
      ∀ info, infos.find? (loop1Cond reasoning) = some info →
        heuristicBest reasoning infos = (some info.code, reasoning)) ∧
    ((strContains (lowerStr reasoning) "best match" = false ∨
        infos.find? (loop1Cond reasoning) = none) →
      ∀ info, infos.find? (loop2Cond reasoning) = some info →
        heuristicBest reasoning infos = (some info.code, reasoning)) ∧
    ((strContains (lowerStr reasoning) "best match" = false ∨
        infos.find? (loop1Cond reasoning) = none) →
      infos.find? (loop2Cond reasoning) = none →
      ∀ i rest, infos = i :: rest →
        heuristicBest reasoning infos = (some i.code, fallbackRationale)) ∧
    (infos = [] → heuristicBest reasoning infos = (none, reasoning)) := by
  have htr : ∀ c : String, c ≠ "" → pythonTruthy (some c) = true :=
    fun c h => bne_iff_ne.mpr h
  have hstep1_none : (strContains (lowerStr reasoning) "best match" = false ∨
      infos.find? (loop1Cond reasoning) = none) →
      heuristicStep1 reasoning infos = none := by
    rintro (hbm | hf1)
    · simp [heuristicStep1, hbm]
    · simp [heuristicStep1, findBestMatchLoop_eq, hf1]
  refine ⟨?_, ?_, ?_, ?_⟩
  · intro hbm info hf1
    have hcode := hne info (List.mem_of_find?_eq_some hf1)
    have h1 : heuristicStep1 reasoning infos = some info.code := by
      simp [heuristicStep1, findBestMatchLoop_eq, hf1, hbm]
    have h2 : heuristicStep2 reasoning infos (some info.code)
        = some info.code := by
      simp [heuristicStep2, htr info.code hcode]
    simp only [heuristicBest]
    rw [h1, h2]
    simp [heuristicStep3, htr info.code hcode]
  · intro hd info hf2
    have hcode := hne info (List.mem_of_find?_eq_some hf2)
    have h2 : heuristicStep2 reasoning infos none = some info.code := by
      simp [heuristicStep2, findPositiveLoop_eq, hf2, pythonTruthy]
    simp only [heuristicBest]
    rw [hstep1_none hd, h2]
    simp [heuristicStep3, htr info.code hcode]
  · intro hd hf2 i rest hinfos
    have h2 : heuristicStep2 reasoning infos none = none := by
      simp [heuristicStep2, findPositiveLoop_eq, hf2, pythonTruthy]
    simp only [heuristicBest]
    rw [hstep1_none hd, h2]
    subst hinfos
    simp [heuristicStep3, pythonTruthy]
  · rintro rfl
    exact heuristicBest_nil reasoning

/-- Witness for the amended C6 at the spec's own example: a single
paragraph holds both "850110" and "best match", so loop 1 selects it. -/
theorem heuristic_parse_amended_witness :
    heuristicBest "850110 is the best match because it fits"
      [⟨"850110", "desc A"⟩, ⟨"850120", "desc B"⟩]
      = (some "850110", "850110 is the best match because it fits") :=
  (heuristic_parse_amended "850110 is the best match because it fits"
      [⟨"850110", "desc A"⟩, ⟨"850120", "desc B"⟩]
      (by decide)).1 (by decide) ⟨"850110", "desc A"⟩ (by decide)

end Classification
